import Mathlib

/-!
Verification of the record-store and aggregator core of `src/app.py`
(AirSial operations tracker).

Shallow embedding conventions:
* A CSV record (Python `dict` of strings, as produced by `csv.DictReader`)
  is an association list `Record` preserving insertion order; `getField`
  models `dict.get` (first matching key).
* Python `int(s)` / `float(s)` on strings are modelled by `parseInt` /
  `parseFloat`, which accept optional sign, decimal digits, and (for
  `parseFloat`) a decimal point, and fail (`none`) otherwise, mirroring
  the `ValueError` raised by CPython on such inputs.
* Python `str(n)` on a nonnegative int is modelled by `decimalRepr`
  (standard most-significant-first decimal digits), `intRepr` for `int`.
* The durable CSV file of a collection is modelled at record granularity:
  `write_csv` stores each record restricted to the schema columns (the
  behaviour of `csv.DictWriter` with `fieldnames = columns` and the
  default `restval` on records whose keys lie in the schema, which is the
  case for every record the application writes), and reloading via
  `read_csv` returns the stored records.
* A raising Python expression is an `Except`; the surrounding
  `try/except` of the source becomes a `match` on that `Except`.
-/

/-- A CSV row / Python dict of strings, keys in insertion order. -/
abbrev Record := List (String × String)

/-- Models `r.get(k)` (and `r.get(k, default)` via `Option.getD`): first matching key. -/
def getField (r : Record) (k : String) : Option String :=
  (r.find? (fun p => p.1 == k)).map (fun p => p.2)

/-- Value of a nonempty all-digit character list (helper for `parseInt`). -/
def parseNatDigits (cs : List Char) : Option Nat :=
  if cs.isEmpty then none
  else if cs.all Char.isDigit then
    some (cs.foldl (fun a c => a * 10 + (c.toNat - 48)) 0)
  else none

/-- Python `int(s)` on strings: optional sign then decimal digits;
`none` models the `ValueError` raised on anything else (e.g. `""`, `"abc"`,
`"1.5"`). -/
def parseInt (s : String) : Option Int :=
  match s.toList with
  | [] => none
  | c :: rest =>
      if c = '-' then (parseNatDigits rest).map (fun n => -(n : Int))
      else if c = '+' then (parseNatDigits rest).map (fun n => (n : Int))
      else (parseNatDigits (c :: rest)).map (fun n => (n : Int))

/-- Digits (with optional single decimal point) to an exact rational;
helper for `parseFloat`. -/
def parseUnsigned (cs : List Char) : Option ℚ :=
  match cs.splitOn '.' with
  | [ds] => (parseNatDigits ds).map (fun n => (n : ℚ))
  | [ds, fs] =>
      if ds.isEmpty && fs.isEmpty then none
      else if ds.all Char.isDigit && fs.all Char.isDigit then
        some ((ds.foldl (fun a c => a * 10 + (c.toNat - 48)) 0 : ℚ) +
              (fs.foldl (fun a c => a * 10 + (c.toNat - 48)) 0 : ℚ) / (10 ^ fs.length))
      else none
  | _ => none

/-- Python `float(s)` on plain decimal literals, with the value taken
exactly in `ℚ` (rounding to binary64 is outside the scope of the claims);
`none` models the `ValueError` on non-numeric strings such as `""` or
`"abc"`. -/
def parseFloat (s : String) : Option ℚ :=
  match s.toList with
  | [] => none
  | c :: rest =>
      if c = '-' then (parseUnsigned rest).map (fun q => -q)
      else if c = '+' then parseUnsigned rest
      else parseUnsigned (c :: rest)

/-- The character of a decimal digit. -/
def digitChar (d : Nat) : Char := Char.ofNat (48 + d)

/-- Decimal digits of `n`, most significant first; `fuel` only drives the
structural recursion and any `fuel > n` gives the same answer. -/
def decChars : Nat → Nat → List Char
  | 0, _ => []
  | fuel + 1, n =>
      if n < 10 then [digitChar n]
      else decChars fuel (n / 10) ++ [digitChar (n % 10)]

/-- Python `str(n)` for a nonnegative integer. -/
def decimalRepr (n : Nat) : String := String.mk (decChars (n + 1) n)

/-- Python `str(i)` for an `int`. -/
def intRepr (i : Int) : String :=
  if i < 0 then "-" ++ decimalRepr i.natAbs else decimalRepr i.natAbs

/-! ## Record store state

`Store` holds one collection: the in-process list (`maint_data`,
`safety_data` or `flights_data`) and the backing CSV file
(`maintenance_data.csv`, …), the latter at record granularity. -/

/-- One collection together with its durable CSV file. -/
structure Store where
  mem : List Record
  file : List Record
deriving DecidableEq

/-- The fixed schemas of `src/app.py` (`MAINTENANCE_COLS` etc.). -/
def MAINTENANCE_COLS : List String :=
  ["id", "aircraft_registration", "maintenance_date", "maintenance_type",
   "engineer_name", "hours_spent", "parts_replaced", "status", "created_at"]

def SAFETY_COLS : List String :=
  ["id", "incident_date", "flight_number", "incident_type", "severity",
   "description", "reported_by", "action_taken", "created_at"]

def FLIGHTS_COLS : List String :=
  ["id", "flight_number", "date", "departure_airport", "arrival_airport",
   "pilot_name", "crew_members", "passengers_count", "notes", "created_at"]

/-- Models `csv.DictWriter(fieldnames = cols)` writing one record: values in schema
order, missing columns as the empty string. -/
def restrict (cols : List String) (r : Record) : Record :=
  cols.map (fun c => (c, (getField r c).getD ""))

/-- Models `write_csv(filename, data, columns)`: the file afterwards holds the
schema-restricted records (what `csv.DictReader` will hand back). -/
def write_csv (cols : List String) (data : List Record) : List Record :=
  data.map (restrict cols)

/-- Models `read_csv` of a collection's file: the records it holds. -/
def read_csv (st : Store) : List Record := st.file

/-- Left-to-right effectful map over a list, stopping at the first raised
exception — the evaluation order of a Python list comprehension or loop
whose body may raise. -/
def exMapM (f : α → Except ε β) : List α → Except ε (List β)
  | [] => .ok []
  | a :: as =>
      match f a with
      | .error e => .error e
      | .ok b => (exMapM f as).map (fun bs => b :: bs)

/-! ## Mutating operations -/

/-- The fresh record built by the Submit form (`maint_form` etc.,
src/app.py:856-866): keys exactly the schema columns in order, `id`
assigned as `str(len(data) + 1)`; every other value (including
`created_at = datetime.now().isoformat()`) is supplied by the caller
through `fields`. -/
def new_record (cols : List String) (fields : String → String) (len : Nat) : Record :=
  cols.map (fun c => (c, if c = "id" then decimalRepr (len + 1) else fields c))

/-- Submit-form insert (src/app.py:855-868): append the new record and
rewrite the collection's CSV file. -/
def insert (cols : List String) (fields : String → String) (st : Store) : Store :=
  let r := new_record cols fields st.mem.length
  { mem := st.mem ++ [r], file := write_csv cols (st.mem ++ [r]) }

/-- Models `int(r.get("id", 0))` (src/app.py:954, 1072): a missing `id` is the
Python int `0`; a present but non-numeric `id` raises `ValueError`. -/
def idNum (r : Record) : Except Unit Int :=
  match getField r "id" with
  | none => .ok 0
  | some s =>
      match parseInt s with
      | some n => .ok n
      | none => .error ()

/-- The numeric id of a record whose `idNum` does not raise. -/
def idVal (r : Record) : Int :=
  match getField r "id" with
  | none => 0
  | some s => (parseInt s).getD 0

/-- Decidable "this record's id does not make `int()` raise". -/
def idOkB (r : Record) : Bool :=
  match getField r "id" with
  | none => true
  | some s => (parseInt s).isSome

/-- Models `max([int(r.get("id", 0)) for r in data_list] + [0]) + 1`
(src/app.py:1072); `foldl max 0` is the maximum of the ids together
with the appended `0`. -/
def nextIdComputation (data : List Record) : Except Unit Int :=
  match exMapM idNum data with
  | .error e => .error e
  | .ok ids => .ok (ids.foldl max 0 + 1)

/-- The Upload-All cleaning loop (src/app.py:1074-1082): one cleaned row
per source row, keys exactly the schema columns, `id` drawn from the
pre-computed consecutive counter, other columns via `row.get(col, "")`
(case-sensitive; unknown source columns are dropped). -/
def cleanRows (cols : List String) : Int → List Record → List Record
  | _, [] => []
  | nextId, row :: rest =>
      (cols.map (fun c =>
        (c, if c = "id" then intRepr nextId else (getField row c).getD ""))) ::
      cleanRows cols (nextId + 1) rest

/-- The Upload page's `try` block after the role gate (src/app.py:1046-1093):
`parsed` is the outcome of `list(csv.DictReader(...))` on the uploaded
bytes; a parse failure (or an `int()` failure while computing `next_id`)
is caught by the `except` and nothing is inserted, otherwise the cleaned
rows are appended and the file rewritten once; the success message
reports `len(rows)`. -/
def uploadAll (cols : List String) (parsed : Except String (List Record))
    (st : Store) : Store × Except String Nat :=
  match parsed with
  | .error e => (st, .error e)
  | .ok rows =>
      match nextIdComputation st.mem with
      | .error _ => (st, .error "invalid literal for int()")
      | .ok nextId =>
          let mem' := st.mem ++ cleanRows cols nextId rows
          ({ mem := mem', file := write_csv cols mem' }, .ok rows.length)

/-- UI outcome of the Delete-Records-in-Range handler: `success`/`noneFound`
are the `st.success`/`st.warning` calls, `invalidIds`/`missingBounds` the
two `st.error` calls. -/
inductive DelOutcome
  | success (deleted : Nat)
  | noneFound
  | invalidIds
  | missingBounds
deriving DecidableEq

/-- Which outcomes surface as a validation error (`st.error`) rather than
a success or warning. -/
def DelOutcome.isValidationError : DelOutcome → Bool
  | .invalidIds => true
  | .missingBounds => true
  | _ => false

/-- The Delete-Records-in-Range handler (src/app.py:948-965): empty bound
strings are falsy (`if start_id and end_id`); `int()` on a bound or on a
record id raises into the `except` branch with nothing deleted (the list
comprehension is fully evaluated before the in-place assignment); the
file is rewritten only when `deleted > 0`. -/
def deleteRange (startId endId : String) (cols : List String) (st : Store) :
    Store × DelOutcome :=
  if startId = "" ∨ endId = "" then (st, .missingBounds)
  else
    match parseInt startId, parseInt endId with
    | some lo, some hi =>
        match exMapM (fun r => (idNum r).map (fun n => (r, n))) st.mem with
        | .error _ => (st, .invalidIds)
        | .ok pairs =>
            let kept := (pairs.filter
              (fun p => !(decide (lo ≤ p.2) && decide (p.2 ≤ hi)))).map Prod.fst
            let deleted := st.mem.length - kept.length
            if 0 < deleted then
              ({ mem := kept, file := write_csv cols kept }, .success deleted)
            else
              ({ st with mem := kept }, .noneFound)
    | _, _ => (st, .invalidIds)

/-! ## Operation sequences -/

/-- One mutating operation on a collection. -/
inductive Op
  | ins (fields : String → String)
  | bulk (parsed : Except String (List Record))
  | del (startId endId : String)

/-- Whether an operation is a range delete. -/
def isDelOp : Op → Bool
  | .del _ _ => true
  | _ => false

/-- Apply one operation to the store (discarding the UI outcome). -/
def applyOp (cols : List String) : Op → Store → Store
  | .ins f, st => insert cols f st
  | .bulk p, st => (uploadAll cols p st).1
  | .del a b, st => (deleteRange a b cols st).1

/-- Run a sequence of operations. -/
def run (cols : List String) (ops : List Op) (st : Store) : Store :=
  ops.foldl (fun s o => applyOp cols o s) st

/-- The ids of a collection are exactly `"1", …, "n"` in order (the state
reached from an empty collection by inserts and bulk imports). -/
def seqIds (mem : List Record) : Prop :=
  mem.map (fun r => getField r "id") =
    (List.range mem.length).map (fun i => some (decimalRepr (i + 1)))

/-- No two records of the collection share an `id`. -/
def uniqueIds (mem : List Record) : Prop :=
  (mem.map (fun r => getField r "id")).Nodup

instance (mem : List Record) : Decidable (seqIds mem) := by
  unfold seqIds; infer_instance

instance (mem : List Record) : Decidable (uniqueIds mem) := by
  unfold uniqueIds; infer_instance

/-! ## Aggregator -/

/-- Models `float(r.get(field, 0))` (src/app.py:691, 729): missing field is the
Python int `0`; a present non-numeric value raises `ValueError`. -/
def pyFloatField (r : Record) (field : String) : Except Unit ℚ :=
  match getField r field with
  | none => .ok 0
  | some s =>
      match parseFloat s with
      | some q => .ok q
      | none => .error ()

/-- The contribution of a record whose field value does not raise. -/
def fieldValQ (r : Record) (field : String) : ℚ :=
  match getField r field with
  | none => 0
  | some s => (parseFloat s).getD 0

/-- Models `sum(float(r.get(field, 0)) for r in data)` (src/app.py:691): the
spec's `sum_numeric` aggregator. -/
def sum_numeric (data : List Record) (field : String) : Except Unit ℚ :=
  match exMapM (fun r => pyFloatField r field) data with
  | .error e => .error e
  | .ok vals => .ok (vals.foldl (· + ·) 0)

/-- Models `types[t] = types.get(t, 0) + 1` on a Python dict: an update keeps the
key at its first-insertion position, a new key is appended. -/
def tallyInsert (m : List (String × Nat)) (k : String) : List (String × Nat) :=
  if m.any (fun p => p.1 == k) then
    m.map (fun p => if p.1 == k then (p.1, p.2 + 1) else p)
  else m ++ [(k, 1)]

/-- The tally loop of src/app.py:671-674 (`group_tally` of the spec):
count occurrences of `r.get(field, default)`, keys in first-encountered
order. -/
def groupTally (data : List Record) (field default : String) : List (String × Nat) :=
  data.foldl (fun m r => tallyInsert m ((getField r field).getD default)) []

/-- Insert an entry into a count-descending list, after every entry of
greater or equal count. -/
def insertDesc (x : String × Nat) : List (String × Nat) → List (String × Nat)
  | [] => [x]
  | y :: ys => if x.2 ≤ y.2 then y :: insertDesc x ys else x :: y :: ys

/-- Models `sorted(tally.items(), key=lambda x: x[1], reverse=True)`
(src/app.py:675): Python's `sorted` is specified as a stable sort, here
realised by stable insertion. -/
def sortDesc (l : List (String × Nat)) : List (String × Nat) :=
  l.foldl (fun acc x => insertDesc x acc) []

/-- Models `sorted(...)[:n]` (src/app.py:677): the spec's `top_n`. -/
def top_n (l : List (String × Nat)) (n : Nat) : List (String × Nat) :=
  (sortDesc l).take n

/-- The records kept by the range-delete comprehension, given the
`(record, numeric id)` pairs it computed. -/
def keptOf (pairs : List (Record × Int)) (lo hi : Int) : List Record :=
  (pairs.filter (fun p => !(decide (lo ≤ p.2) && decide (p.2 ≤ hi)))).map Prod.fst

/-- Every in-memory record already has exactly the schema shape (true of
every record the application itself creates or reloads from its own
files). -/
def canonical (cols : List String) (st : Store) : Prop :=
  ∀ r ∈ st.mem, restrict cols r = r

/-- The durable file holds the same records as the in-memory collection. -/
def consistent (st : Store) : Prop := st.file = st.mem

instance (cols : List String) (st : Store) : Decidable (canonical cols st) := by
  unfold canonical; infer_instance

instance (st : Store) : Decidable (consistent st) := by
  unfold consistent; infer_instance

/-! ## Helper lemmas -/

theorem getField_map_keys (cols : List String) (g : String → String) (k : String) :
    getField (cols.map (fun c => (c, g c))) k
      = if k ∈ cols then some (g k) else none := by
  induction cols with
  | nil => rfl
  | cons c cs ih =>
      by_cases hc : c = k
      · subst hc
        simp [getField, List.find?_cons_of_pos]
      · simp only [List.map_cons, getField]
        rw [List.find?_cons_of_neg]
        · have hdef : Option.map (fun p : String × String => p.2)
              (List.find? (fun p => p.1 == k) (List.map (fun c => (c, g c)) cs))
              = getField (List.map (fun c => (c, g c)) cs) k := rfl
          rw [hdef, ih]
          by_cases hk : k ∈ cs
          · simp [hk]
          · simp [hk, List.mem_cons, Ne.symm hc]
        · simpa using hc

theorem restrict_map_keys (cols : List String) (g : String → String) :
    restrict cols (cols.map (fun c => (c, g c))) = cols.map (fun c => (c, g c)) := by
  unfold restrict
  refine List.map_congr_left (fun c hc => ?_)
  rw [getField_map_keys]
  simp [hc]

theorem digitChar_isDigit {d : Nat} (hd : d < 10) : (digitChar d).isDigit = true := by
  interval_cases d <;> decide

theorem digitChar_toNat {d : Nat} (hd : d < 10) : (digitChar d).toNat = 48 + d := by
  interval_cases d <;> decide

theorem decChars_spec : ∀ fuel n, n < fuel →
    decChars fuel n ≠ [] ∧ (decChars fuel n).all Char.isDigit = true ∧
      (decChars fuel n).foldl (fun a c => a * 10 + (c.toNat - 48)) 0 = n := by
  intro fuel
  induction fuel with
  | zero => intro n hn; omega
  | succ fuel ih =>
      intro n hn
      by_cases h10 : n < 10
      · refine ⟨by simp [decChars, h10], ?_, ?_⟩
        · simp [decChars, h10, digitChar_isDigit h10]
        · simp [decChars, h10, digitChar_toNat h10]
      · have hdiv : n / 10 < fuel := by
          have h1 : n / 10 < n := Nat.div_lt_self (by omega) (by omega)
          omega
        obtain ⟨hne, hdig, hval⟩ := ih (n / 10) hdiv
        have hmod : n % 10 < 10 := Nat.mod_lt _ (by omega)
        refine ⟨?_, ?_, ?_⟩
        · simp [decChars, h10]
        · simp only [decChars, if_neg h10, List.all_append]
          simp [hdig, digitChar_isDigit hmod]
        · simp only [decChars, if_neg h10, List.foldl_append, hval]
          simp only [List.foldl_cons, List.foldl_nil, digitChar_toNat hmod]
          omega

theorem parseInt_decimalRepr (n : Nat) : parseInt (decimalRepr n) = some (n : Int) := by
  obtain ⟨hne, hdig, hval⟩ := decChars_spec (n + 1) n (by omega)
  have htl : (decimalRepr n).toList = decChars (n + 1) n := rfl
  cases hcs : decChars (n + 1) n with
  | nil => exact absurd hcs hne
  | cons c rest =>
      rw [hcs] at hdig hval
      have hcd : c.isDigit = true := by
        have := List.all_eq_true.mp hdig c (by simp)
        simpa using this
      have hcm : ¬(c = '-') := by
        intro h; subst h; simp [Char.isDigit] at hcd
      have hcp : ¬(c = '+') := by
        intro h; subst h; simp [Char.isDigit] at hcd
      have hstep : parseInt (decimalRepr n)
          = if c = '-' then (parseNatDigits rest).map (fun m => -(m : Int))
            else if c = '+' then (parseNatDigits rest).map (fun m => (m : Int))
            else (parseNatDigits (c :: rest)).map (fun m => (m : Int)) := by
        rw [parseInt, htl, hcs]
      rw [hstep, if_neg hcm, if_neg hcp]
      rw [parseNatDigits, if_neg (by simp), if_pos hdig, hval]
      rfl

theorem decimalRepr_injective : Function.Injective decimalRepr := by
  intro a b hab
  have h2 : (some (a : Int)) = some (b : Int) := by
    rw [← parseInt_decimalRepr a, hab, parseInt_decimalRepr b]
  have h3 := Option.some.inj h2
  exact_mod_cast h3

theorem parseInt_ne_empty {s : String} {n : Int} (h : parseInt s = some n) : s ≠ "" := by
  intro hs
  subst hs
  simp [parseInt] at h

theorem intRepr_natCast (m : Nat) : intRepr (m : Int) = decimalRepr m := by
  rw [intRepr, if_neg (by omega)]
  simp

theorem exMapM_ok_of_forall {f : α → Except ε β} {g : α → β} :
    ∀ {l : List α}, (∀ a ∈ l, f a = .ok (g a)) → exMapM f l = .ok (l.map g) := by
  intro l
  induction l with
  | nil => intro _; rfl
  | cons a as ih =>
      intro h
      rw [exMapM, h a (by simp), ih (fun x hx => h x (by simp [hx]))]
      rfl

theorem exMapM_error_of_mem {f : α → Except Unit β} {a : α} :
    ∀ {l : List α}, a ∈ l → f a = .error () → exMapM f l = .error () := by
  intro l
  induction l with
  | nil => intro h; simp at h
  | cons b bs ih =>
      intro hmem hfa
      rw [exMapM]
      cases hfb : f b with
      | error e => cases e; rfl
      | ok v =>
          have hbs : a ∈ bs := by
            rcases List.mem_cons.mp hmem with h | h
            · subst h; rw [hfa] at hfb; cases hfb
            · exact h
          rw [ih hbs hfa]
          rfl

theorem exMapM_pairs_fst {f : Record → Except Unit Int} :
    ∀ {l : List Record} {pairs : List (Record × Int)},
      exMapM (fun r => (f r).map (fun n => (r, n))) l = .ok pairs →
      pairs.map Prod.fst = l := by
  intro l
  induction l with
  | nil =>
      intro pairs h
      rw [exMapM] at h
      cases h
      rfl
  | cons r rest ih =>
      intro pairs h
      rw [exMapM] at h
      cases hfr : f r with
      | error e => rw [hfr] at h; cases h
      | ok n =>
          rw [hfr] at h
          cases hrest : exMapM (fun r => (f r).map (fun n => (r, n))) rest with
          | error e => rw [hrest] at h; cases h
          | ok ps =>
              rw [hrest] at h
              cases h
              simp [ih hrest]

theorem filter_pairs (lI hI : Int) (l : List Record) :
    ((l.map (fun r => (r, idVal r))).filter
        (fun p => !(decide (lI ≤ p.2) && decide (p.2 ≤ hI)))).map Prod.fst
      = l.filter (fun r => !(decide (lI ≤ idVal r) && decide (idVal r ≤ hI))) := by
  induction l with
  | nil => rfl
  | cons a as ih =>
      simp only [List.map_cons, List.filter_cons]
      by_cases hp : (!(decide (lI ≤ idVal a) && decide (idVal a ≤ hI))) = true
      · rw [if_pos hp, if_pos hp, List.map_cons, ih]
      · rw [if_neg hp, if_neg hp, ih]

theorem length_filter_split (p : α → Bool) (l : List α) :
    (l.filter p).length + (l.filter (fun a => !p a)).length = l.length := by
  induction l with
  | nil => rfl
  | cons a as ih =>
      by_cases hp : p a
      · simp [List.filter_cons, hp, ← ih]
        omega
      · simp [List.filter_cons, hp, ← ih]
        omega

theorem idNum_of_idOkB {r : Record} (h : idOkB r = true) : idNum r = .ok (idVal r) := by
  rw [idNum, idVal]
  rw [idOkB] at h
  cases hg : getField r "id" with
  | none => rfl
  | some s =>
      rw [hg] at h
      have h' : (parseInt s).isSome = true := h
      cases hp : parseInt s with
      | none => rw [hp] at h'; simp at h'
      | some n =>
          show (match parseInt s with
                | some n => (Except.ok n : Except Unit Int)
                | none => .error ()) = Except.ok ((parseInt s).getD 0)
          rw [hp]
          rfl

/-- The success path of `deleteRange`: with numeric bounds and all record
ids acceptable to `int()`, the handler keeps exactly the out-of-range
records and reports the number removed (a warning when that number is
zero). -/
theorem deleteRange_ok {lo hi : String} {l h : Int} (cols : List String) (st : Store)
    (hlo : parseInt lo = some l) (hhi : parseInt hi = some h)
    (hid : ∀ r ∈ st.mem, idOkB r = true) :
    deleteRange lo hi cols st =
      (if 0 < st.mem.length - (st.mem.filter
            (fun r => !(decide (l ≤ idVal r) && decide (idVal r ≤ h)))).length then
         ({ mem := st.mem.filter
              (fun r => !(decide (l ≤ idVal r) && decide (idVal r ≤ h))),
            file := write_csv cols (st.mem.filter
              (fun r => !(decide (l ≤ idVal r) && decide (idVal r ≤ h)))) },
          .success (st.mem.length - (st.mem.filter
            (fun r => !(decide (l ≤ idVal r) && decide (idVal r ≤ h)))).length))
       else
         ({ st with mem := (st.mem.filter
              (fun r => !(decide (l ≤ idVal r) && decide (idVal r ≤ h)))) },
          .noneFound)) := by
  have hlo' : lo ≠ "" := parseInt_ne_empty hlo
  have hhi' : hi ≠ "" := parseInt_ne_empty hhi
  have hmap : exMapM (fun r => (idNum r).map (fun n => (r, n))) st.mem
      = .ok (st.mem.map (fun r => (r, idVal r))) := by
    refine exMapM_ok_of_forall (fun r hr => ?_)
    rw [idNum_of_idOkB (hid r hr)]
    rfl
  have hred : deleteRange lo hi cols st =
      (if 0 < st.mem.length - (((st.mem.map (fun r => (r, idVal r))).filter
            (fun p => !(decide (l ≤ p.2) && decide (p.2 ≤ h)))).map Prod.fst).length then
         ({ mem := ((st.mem.map (fun r => (r, idVal r))).filter
              (fun p => !(decide (l ≤ p.2) && decide (p.2 ≤ h)))).map Prod.fst,
            file := write_csv cols (((st.mem.map (fun r => (r, idVal r))).filter
              (fun p => !(decide (l ≤ p.2) && decide (p.2 ≤ h)))).map Prod.fst) },
          .success (st.mem.length - (((st.mem.map (fun r => (r, idVal r))).filter
            (fun p => !(decide (l ≤ p.2) && decide (p.2 ≤ h)))).map Prod.fst).length))
       else
         ({ st with mem := (((st.mem.map (fun r => (r, idVal r))).filter
              (fun p => !(decide (l ≤ p.2) && decide (p.2 ≤ h)))).map Prod.fst) },
          .noneFound)) := by
    rw [deleteRange, if_neg (by simp [hlo', hhi']), hlo, hhi, hmap]
  rw [hred, filter_pairs]

theorem idNum_eq_of_parse {r : Record} {s : String} {n : Int}
    (hg : getField r "id" = some s) (hp : parseInt s = some n) :
    idNum r = .ok n := by
  have h1 : idNum r = (match parseInt s with
      | some n => (Except.ok n : Except Unit Int)
      | none => .error ()) := by
    rw [idNum, hg]
  rw [h1, hp]

theorem getField_new_record (cols : List String) (f : String → String) (len : Nat)
    (hid : "id" ∈ cols) :
    getField (new_record cols f len) "id" = some (decimalRepr (len + 1)) := by
  rw [new_record, getField_map_keys]
  simp [hid]

theorem seqIds_insert (cols : List String) (f : String → String) (st : Store)
    (hs : seqIds st.mem) (hid : "id" ∈ cols) :
    seqIds (insert cols f st).mem := by
  have hmem : (insert cols f st).mem = st.mem ++ [new_record cols f st.mem.length] := rfl
  unfold seqIds at hs ⊢
  rw [hmem, List.map_append, hs, List.length_append]
  simp only [List.length_cons, List.length_nil, Nat.zero_add]
  rw [List.range_succ, List.map_append]
  simp [getField_new_record cols f st.mem.length hid]

theorem exMapM_idNum_of_ids :
    ∀ (mem : List Record) (start : Nat),
      mem.map (fun r => getField r "id")
          = (List.range mem.length).map (fun i => some (decimalRepr (start + i + 1))) →
      exMapM idNum mem
        = .ok ((List.range mem.length).map (fun i => ((start + i + 1 : Nat) : Int))) := by
  intro mem
  induction mem with
  | nil => intro start _; rfl
  | cons r rest ih =>
      intro start h
      rw [List.map_cons, List.length_cons, List.range_succ_eq_map,
        List.map_cons, List.map_map] at h
      have hhead : getField r "id" = some (decimalRepr (start + 0 + 1)) :=
        (List.cons.injEq _ _ _ _ ▸ h).1
      have htail : rest.map (fun r => getField r "id")
          = (List.range rest.length).map
              (fun i => some (decimalRepr (start + 1 + i + 1))) := by
        have := (List.cons.injEq _ _ _ _ ▸ h).2
        rw [this]
        refine List.map_congr_left (fun i _ => ?_)
        simp only [Function.comp]
        congr 2
        omega
      have hr : idNum r = .ok ((start + 1 : Nat) : Int) :=
        idNum_eq_of_parse hhead (by simpa using parseInt_decimalRepr (start + 1))
      rw [exMapM, hr, ih (start + 1) htail]
      show Except.ok (((start + 1 : Nat) : Int) ::
            (List.range rest.length).map (fun i : Nat => ((start + 1 + i + 1 : Nat) : Int)))
          = Except.ok ((List.range (rest.length + 1)).map
              (fun i : Nat => ((start + i + 1 : Nat) : Int)))
      rw [List.range_succ_eq_map, List.map_cons, List.map_map]
      refine congrArg Except.ok ?_
      congr 1
      refine List.map_congr_left (fun i _ => ?_)
      simp only [Function.comp]
      omega

theorem foldl_max_range (n : Nat) :
    List.foldl max 0 ((List.range n).map (fun i : Nat => ((i : Int) + 1))) = (n : Int) := by
  induction n with
  | zero => rfl
  | succ n ih =>
      rw [List.range_succ, List.map_append, List.foldl_append, ih]
      simp only [List.map_cons, List.map_nil, List.foldl_cons, List.foldl_nil]
      rw [max_eq_right (by omega)]
      push_cast
      ring

theorem nextId_of_seqIds (st : Store) (hs : seqIds st.mem) :
    nextIdComputation st.mem = .ok ((st.mem.length : Int) + 1) := by
  have h1 : exMapM idNum st.mem
      = .ok ((List.range st.mem.length).map (fun i : Nat => ((0 + i + 1 : Nat) : Int))) := by
    refine exMapM_idNum_of_ids st.mem 0 ?_
    rw [hs]
    refine List.map_congr_left (fun i _ => ?_)
    congr 2
    omega
  have h2 : (List.range st.mem.length).map (fun i : Nat => ((0 + i + 1 : Nat) : Int))
      = (List.range st.mem.length).map (fun i : Nat => ((i : Int) + 1)) := by
    refine List.map_congr_left (fun i _ => ?_)
    push_cast
    ring
  rw [nextIdComputation, h1]
  show Except.ok (List.foldl max 0 ((List.range st.mem.length).map
        (fun i : Nat => ((0 + i + 1 : Nat) : Int))) + 1)
      = Except.ok ((st.mem.length : Int) + 1)
  rw [h2, foldl_max_range]

theorem cleanRows_ids (cols : List String) (hid : "id" ∈ cols) :
    ∀ (rows : List Record) (nid : Int),
      (cleanRows cols nid rows).map (fun r => getField r "id")
        = (List.range rows.length).map (fun k : Nat => some (intRepr (nid + (k : Int)))) := by
  intro rows
  induction rows with
  | nil => intro nid; rfl
  | cons row rest ih =>
      intro nid
      show ((cols.map (fun c =>
            (c, if c = "id" then intRepr nid else (getField row c).getD ""))) ::
            cleanRows cols (nid + 1) rest).map (fun r => getField r "id")
          = (List.range (row :: rest).length).map
              (fun k : Nat => some (intRepr (nid + (k : Int))))
      rw [List.map_cons, getField_map_keys, ih (nid + 1), List.length_cons,
        List.range_succ_eq_map, List.map_cons, List.map_map]
      congr 1
      · simp [hid]
      · refine List.map_congr_left (fun k _ => ?_)
        simp only [Function.comp]
        congr 2
        omega

theorem seqIds_upload (cols : List String) (parsed : Except String (List Record))
    (st : Store) (hs : seqIds st.mem) (hid : "id" ∈ cols) :
    seqIds (uploadAll cols parsed st).1.mem := by
  cases parsed with
  | error e => exact hs
  | ok rows =>
      have hnext := nextId_of_seqIds st hs
      have hu : (uploadAll cols (.ok rows) st).1
          = { mem := st.mem ++ cleanRows cols ((st.mem.length : Int) + 1) rows,
              file := write_csv cols
                (st.mem ++ cleanRows cols ((st.mem.length : Int) + 1) rows) } := by
        rw [uploadAll, hnext]
      rw [hu]
      have hclen : ∀ (nid : Int) (rs : List Record),
          (cleanRows cols nid rs).length = rs.length := by
        intro nid rs
        induction rs generalizing nid with
        | nil => rfl
        | cons row rest ih => simp [cleanRows, ih]
      unfold seqIds at hs ⊢
      simp only
      rw [List.map_append, hs, cleanRows_ids cols hid rows ((st.mem.length : Int) + 1)]
      rw [List.length_append, hclen, List.range_add, List.map_append, List.map_map]
      congr 1
      refine List.map_congr_left (fun k _ => ?_)
      simp only [Function.comp]
      have hcast : ((st.mem.length : Int) + 1 + (k : Int))
          = ((st.mem.length + 1 + k : Nat) : Int) := by
        push_cast
        ring
      rw [hcast, intRepr_natCast]
      congr 2
      omega

theorem uniqueIds_of_seqIds {mem : List Record} (hs : seqIds mem) : uniqueIds mem := by
  unfold uniqueIds
  rw [hs]
  refine List.Nodup.map ?_ (List.nodup_range _)
  intro a b hab
  have h1 := decimalRepr_injective (Option.some.inj hab)
  omega

theorem seqIds_run (cols : List String) (ops : List Op) (st : Store)
    (hid : "id" ∈ cols) (hs : seqIds st.mem)
    (hops : ∀ op ∈ ops, isDelOp op = false) :
    seqIds (run cols ops st).mem := by
  induction ops generalizing st with
  | nil => exact hs
  | cons op rest ih =>
      have hstep : seqIds (applyOp cols op st).mem := by
        cases op with
        | ins f => exact seqIds_insert cols f st hs hid
        | bulk p => exact seqIds_upload cols p st hs hid
        | del a b =>
            have := hops (.del a b) (by simp)
            simp [isDelOp] at this
      have hrun : run cols (op :: rest) st = run cols rest (applyOp cols op st) := rfl
      rw [hrun]
      exact ih (applyOp cols op st) hstep (fun o ho => hops o (by simp [ho]))

theorem mem_cleanRows {cols : List String} :
    ∀ {nid : Int} {rows : List Record} {r : Record}, r ∈ cleanRows cols nid rows →
      ∃ g : String → String, r = cols.map (fun c => (c, g c)) := by
  intro nid rows
  induction rows generalizing nid with
  | nil => intro r h; simp [cleanRows] at h
  | cons row rest ih =>
      intro r h
      have h2 : r ∈ (cols.map (fun c =>
            (c, if c = "id" then intRepr nid else (getField row c).getD ""))) ::
          cleanRows cols (nid + 1) rest := h
      rcases List.mem_cons.mp h2 with h1 | h1
      · exact ⟨_, h1⟩
      · exact ih h1

theorem write_csv_of_canonical {cols : List String} {l : List Record}
    (h : ∀ r ∈ l, restrict cols r = r) : write_csv cols l = l := by
  unfold write_csv
  have h2 : l.map (restrict cols) = l.map id := List.map_congr_left h
  rw [h2, List.map_id]

theorem uploadAll_ok_reduce {cols : List String} {rows : List Record} {st : Store}
    {nid : Int} (hn : nextIdComputation st.mem = .ok nid) :
    uploadAll cols (.ok rows) st
      = ({ mem := st.mem ++ cleanRows cols nid rows,
           file := write_csv cols (st.mem ++ cleanRows cols nid rows) },
         .ok rows.length) := by
  rw [uploadAll, hn]

theorem uploadAll_err_reduce {cols : List String} {rows : List Record} {st : Store}
    (hn : nextIdComputation st.mem = .error ()) :
    uploadAll cols (.ok rows) st = (st, .error "invalid literal for int()") := by
  rw [uploadAll, hn]

theorem deleteRange_missing {a b : String} (cols : List String) (st : Store)
    (h : a = "" ∨ b = "") : deleteRange a b cols st = (st, .missingBounds) := by
  rw [deleteRange, if_pos h]

theorem deleteRange_badLo {a b : String} (cols : List String) (st : Store)
    (ha : a ≠ "") (hb : b ≠ "") (hpa : parseInt a = none) :
    deleteRange a b cols st = (st, .invalidIds) := by
  rw [deleteRange, if_neg (by simp [ha, hb]), hpa]

theorem deleteRange_badHi {a b : String} {lo : Int} (cols : List String) (st : Store)
    (ha : a ≠ "") (hb : b ≠ "") (hpa : parseInt a = some lo)
    (hpb : parseInt b = none) :
    deleteRange a b cols st = (st, .invalidIds) := by
  rw [deleteRange, if_neg (by simp [ha, hb]), hpa, hpb]

theorem deleteRange_raise {a b : String} {lo hi : Int} (cols : List String) (st : Store)
    (hpa : parseInt a = some lo) (hpb : parseInt b = some hi)
    (hm : exMapM (fun r => (idNum r).map (fun n => (r, n))) st.mem = .error ()) :
    deleteRange a b cols st = (st, .invalidIds) := by
  rw [deleteRange,
    if_neg (by simp [parseInt_ne_empty hpa, parseInt_ne_empty hpb]), hpa, hpb, hm]

theorem deleteRange_ok_pairs {a b : String} {lo hi : Int} {pairs : List (Record × Int)}
    (cols : List String) (st : Store)
    (hpa : parseInt a = some lo) (hpb : parseInt b = some hi)
    (hm : exMapM (fun r => (idNum r).map (fun n => (r, n))) st.mem = .ok pairs) :
    deleteRange a b cols st =
      (if 0 < st.mem.length - (keptOf pairs lo hi).length then
         ({ mem := keptOf pairs lo hi, file := write_csv cols (keptOf pairs lo hi) },
          .success (st.mem.length - (keptOf pairs lo hi).length))
       else
         ({ st with mem := keptOf pairs lo hi }, .noneFound)) := by
  rw [deleteRange,
    if_neg (by simp [parseInt_ne_empty hpa, parseInt_ne_empty hpb]), hpa, hpb, hm]
  rfl

theorem keptOf_sublist {pairs : List (Record × Int)} {mem : List Record} {lo hi : Int}
    (hfst : pairs.map Prod.fst = mem) : (keptOf pairs lo hi).Sublist mem := by
  rw [← hfst]
  exact (List.filter_sublist pairs).map Prod.fst

theorem idNum_raise {r : Record} {s : String}
    (hg : getField r "id" = some s) (hp : parseInt s = none) :
    idNum r = .error () := by
  have h1 : idNum r = (match parseInt s with
      | some n => (Except.ok n : Except Unit Int)
      | none => .error ()) := by
    rw [idNum, hg]
  rw [h1, hp]

theorem pyFloatField_some {r : Record} {field s : String}
    (hg : getField r field = some s) :
    pyFloatField r field = (match parseFloat s with
      | some q => (Except.ok q : Except Unit ℚ)
      | none => .error ()) := by
  rw [pyFloatField, hg]

theorem pyFloatField_of_all {r : Record} {field : String}
    (h : Option.all (fun s => (parseFloat s).isSome) (getField r field) = true) :
    pyFloatField r field = .ok (fieldValQ r field) := by
  rw [pyFloatField, fieldValQ]
  cases hg : getField r field with
  | none => rfl
  | some s =>
      rw [hg] at h
      have h' : (parseFloat s).isSome = true := by simpa using h
      cases hp : parseFloat s with
      | none => rw [hp] at h'; simp at h'
      | some q =>
          show (match parseFloat s with
                | some q => (Except.ok q : Except Unit ℚ)
                | none => .error ()) = Except.ok ((parseFloat s).getD 0)
          rw [hp]
          rfl

theorem pyFloatField_raise {r : Record} {field s : String}
    (hg : getField r field = some s) (hp : parseFloat s = none) :
    pyFloatField r field = .error () := by
  rw [pyFloatField_some hg, hp]

theorem mem_insertDesc {x z : String × Nat} :
    ∀ {l : List (String × Nat)}, z ∈ insertDesc x l → z = x ∨ z ∈ l := by
  intro l
  induction l with
  | nil => intro h; simpa [insertDesc] using h
  | cons y ys ih =>
      intro h
      rw [insertDesc] at h
      by_cases hc : x.2 ≤ y.2
      · rw [if_pos hc] at h
        rcases List.mem_cons.mp h with h1 | h1
        · exact Or.inr (by simp [h1])
        · rcases ih h1 with h2 | h2
          · exact Or.inl h2
          · exact Or.inr (by simp [h2])
      · rw [if_neg hc] at h
        rcases List.mem_cons.mp h with h1 | h1
        · exact Or.inl h1
        · exact Or.inr h1

theorem sorted_insertDesc {x : String × Nat} :
    ∀ {l : List (String × Nat)},
      l.Pairwise (fun a b => b.2 ≤ a.2) →
      (insertDesc x l).Pairwise (fun a b => b.2 ≤ a.2) := by
  intro l
  induction l with
  | nil => intro _; simp [insertDesc]
  | cons y ys ih =>
      intro hs
      rw [insertDesc]
      rcases List.pairwise_cons.mp hs with ⟨hy, hys⟩
      by_cases hc : x.2 ≤ y.2
      · rw [if_pos hc]
        refine List.pairwise_cons.mpr ⟨?_, ih hys⟩
        intro z hz
        rcases mem_insertDesc hz with h1 | h1
        · rw [h1]; exact hc
        · exact hy z h1
      · rw [if_neg hc]
        refine List.pairwise_cons.mpr ⟨?_, hs⟩
        intro z hz
        rcases List.mem_cons.mp hz with h1 | h1
        · rw [h1]; omega
        · have := hy z h1; omega

theorem sorted_foldl_insertDesc :
    ∀ (l acc : List (String × Nat)),
      acc.Pairwise (fun a b => b.2 ≤ a.2) →
      (l.foldl (fun acc x => insertDesc x acc) acc).Pairwise (fun a b => b.2 ≤ a.2) := by
  intro l
  induction l with
  | nil => intro acc h; exact h
  | cons x xs ih =>
      intro acc h
      exact ih (insertDesc x acc) (sorted_insertDesc h)

theorem sorted_sortDesc (l : List (String × Nat)) :
    (sortDesc l).Pairwise (fun a b => b.2 ≤ a.2) :=
  sorted_foldl_insertDesc l [] (by simp)

theorem filter_insertDesc_ne {x : String × Nat} {c : Nat} (hne : ¬x.2 = c) :
    ∀ (l : List (String × Nat)),
      (insertDesc x l).filter (fun p => p.2 == c) = l.filter (fun p => p.2 == c) := by
  intro l
  induction l with
  | nil => simp [insertDesc, List.filter_cons, hne]
  | cons y ys ih =>
      rw [insertDesc]
      by_cases hc : x.2 ≤ y.2
      · rw [if_pos hc, List.filter_cons, List.filter_cons]
        by_cases hy : (y.2 == c) = true
        · rw [if_pos hy, if_pos hy, ih]
        · rw [if_neg hy, if_neg hy, ih]
      · rw [if_neg hc, List.filter_cons]
        have hx : ((x.2 == c) = true) = False := by simp [hne]
        rw [if_neg (by simp [hne])]

theorem filter_insertDesc_eq {x : String × Nat} :
    ∀ {l : List (String × Nat)}, l.Pairwise (fun a b => b.2 ≤ a.2) →
      (insertDesc x l).filter (fun p => p.2 == x.2)
        = l.filter (fun p => p.2 == x.2) ++ [x] := by
  intro l
  induction l with
  | nil => intro _; simp [insertDesc, List.filter_cons]
  | cons y ys ih =>
      intro hs
      rcases List.pairwise_cons.mp hs with ⟨hy, hys⟩
      rw [insertDesc]
      by_cases hc : x.2 ≤ y.2
      · rw [if_pos hc, List.filter_cons, List.filter_cons]
        by_cases hyc : (y.2 == x.2) = true
        · rw [if_pos hyc, if_pos hyc, ih hys]
          rfl
        · rw [if_neg hyc, if_neg hyc, ih hys]
      · rw [if_neg hc, List.filter_cons, if_pos (by simp)]
        have hnone : (y :: ys).filter (fun p => p.2 == x.2) = [] := by
          refine List.filter_eq_nil_iff.mpr (fun z hz => ?_)
          rcases List.mem_cons.mp hz with h1 | h1
          · simp [h1]; omega
          · have := hy z h1; simp; omega
        rw [hnone]
        rfl

theorem filter_foldl_insertDesc (c : Nat) :
    ∀ (l acc : List (String × Nat)), acc.Pairwise (fun a b => b.2 ≤ a.2) →
      (l.foldl (fun acc x => insertDesc x acc) acc).filter (fun p => p.2 == c)
        = acc.filter (fun p => p.2 == c) ++ l.filter (fun p => p.2 == c) := by
  intro l
  induction l with
  | nil => intro acc _; simp
  | cons x xs ih =>
      intro acc hacc
      have hstep := ih (insertDesc x acc) (sorted_insertDesc hacc)
      rw [List.foldl_cons, hstep, List.filter_cons]
      by_cases hx : (x.2 == c) = true
      · have hxc : x.2 = c := by simpa using hx
        rw [if_pos hx]
        rw [show (fun p : String × Nat => p.2 == c) = (fun p => p.2 == x.2) by
          funext p; rw [hxc]]
        rw [filter_insertDesc_eq hacc]
        simp
      · rw [if_neg hx, filter_insertDesc_ne (by simpa using hx) acc]

theorem filter_sortDesc (c : Nat) (l : List (String × Nat)) :
    (sortDesc l).filter (fun p => p.2 == c) = l.filter (fun p => p.2 == c) := by
  have h := filter_foldl_insertDesc c l [] (by simp)
  simpa [sortDesc] using h

/-! ## Claims -/

/-- Claim C1, counterexample: from a loaded collection holding a single
record with id `"2"` (any CSV file can load to such a state), one single
insert assigns `str(len + 1) = "2"` and duplicates the id, so uniqueness
does not hold from arbitrary loaded states. -/
theorem C1_counterexample :
    ¬ uniqueIds (run MAINTENANCE_COLS [Op.ins (fun _ => "")]
        ⟨[[("id", "2")]], [[("id", "2")]]⟩).mem := by
  decide

/-- Claim C1 (amended): for every sequence of inserts and bulk imports
started from a collection whose ids are exactly `"1", …, "n"` in order —
in particular from the empty collection — no two records in the same
collection ever share an id (every intermediate state is the final state
of a prefix of the sequence, so this covers all times). -/
theorem C1_unique_ids (cols : List String) (ops : List Op) (st : Store)
    (hid : "id" ∈ cols) (hs : seqIds st.mem)
    (hops : ∀ op ∈ ops, isDelOp op = false) :
    uniqueIds (run cols ops st).mem :=
  uniqueIds_of_seqIds (seqIds_run cols ops st hid hs hops)

/-- Witness for C1: an insert followed by a two-row bulk import from the
empty maintenance collection keeps ids unique. -/
theorem C1_unique_ids_witness :
    uniqueIds (run MAINTENANCE_COLS
      [Op.ins (fun _ => ""),
       Op.bulk (.ok [[("maintenance_type", "A-Check")], [("maintenance_type", "B-Check")]])]
      ⟨[], []⟩).mem :=
  C1_unique_ids MAINTENANCE_COLS
    [Op.ins (fun _ => ""),
     Op.bulk (.ok [[("maintenance_type", "A-Check")], [("maintenance_type", "B-Check")]])]
    ⟨[], []⟩ (by decide) (by decide) (by decide)

/-- Claim C5: an unparseable upload is caught by the `try/except` before
any row is built, so the collection, its file and the record count are
unchanged and nothing is inserted. -/
theorem C5_bulk_atomic (cols : List String) (e : String) (st : Store) :
    uploadAll cols (Except.error e) st = (st, Except.error e)
    ∧ (uploadAll cols (Except.error e) st).1.mem.length = st.mem.length
    ∧ (uploadAll cols (Except.error e) st).1.file = st.file :=
  ⟨rfl, rfl, rfl⟩

/-- Claim C9: `top_n` (the `sorted(..., key=count, reverse=True)[:n]` of
src/app.py:675-677) is descending in the counts; the sort is stable — for
every count the entries with that count keep their first-encountered
(tally construction) order; and on the tally `{A: 2, C: 1, B: 2}` built
from values encountered in order A, C, B, `top_n 2` is `[(A,2), (B,2)]`
with A before B. -/
theorem C9_top_n :
    (∀ (l : List (String × Nat)) (n : Nat),
        (top_n l n).Pairwise (fun a b => b.2 ≤ a.2))
    ∧ (∀ (l : List (String × Nat)) (c : Nat),
        (sortDesc l).filter (fun p => p.2 == c) = l.filter (fun p => p.2 == c))
    ∧ groupTally [[("maintenance_type", "A")], [("maintenance_type", "C")],
        [("maintenance_type", "B")], [("maintenance_type", "A")],
        [("maintenance_type", "B")]] "maintenance_type" "Unknown"
      = [("A", 2), ("C", 1), ("B", 2)]
    ∧ top_n [("A", 2), ("C", 1), ("B", 2)] 2 = [("A", 2), ("B", 2)] := by
  refine ⟨?_, fun l c => filter_sortDesc c l, by decide, by decide⟩
  intro l n
  exact List.Pairwise.sublist (List.take_sublist n (sortDesc l)) (sorted_sortDesc l)

/-- Claim C2: with numeric bounds `l ≤ h` and every record id acceptable
to `int()`, range delete keeps exactly the records outside `[l, h]`
(each kept record is the original, untouched), and the number reported
removed — `original_len - len(data)` — is exactly the number of in-range
records (surfaced as a success count when positive, as the
no-records-found warning when zero). -/
theorem C2_range_delete {lo hi : String} {l h : Int} (cols : List String) (st : Store)
    (hlo : parseInt lo = some l) (hhi : parseInt hi = some h) (_hle : l ≤ h)
    (hid : ∀ r ∈ st.mem, idOkB r = true) :
    (deleteRange lo hi cols st).1.mem
        = st.mem.filter (fun r => !(decide (l ≤ idVal r) && decide (idVal r ≤ h)))
    ∧ st.mem.length - (deleteRange lo hi cols st).1.mem.length
        = (st.mem.filter (fun r => decide (l ≤ idVal r) && decide (idVal r ≤ h))).length
    ∧ (deleteRange lo hi cols st).2
        = (if 0 < (st.mem.filter
              (fun r => decide (l ≤ idVal r) && decide (idVal r ≤ h))).length
           then DelOutcome.success ((st.mem.filter
              (fun r => decide (l ≤ idVal r) && decide (idVal r ≤ h))).length)
           else DelOutcome.noneFound) := by
  have hsplit := length_filter_split
    (fun r => decide (l ≤ idVal r) && decide (idVal r ≤ h)) st.mem
  beta_reduce at hsplit
  have hred := deleteRange_ok cols st hlo hhi hid
  have hkle : (st.mem.filter
      (fun r => !(decide (l ≤ idVal r) && decide (idVal r ≤ h)))).length
      ≤ st.mem.length := List.length_filter_le _ _
  by_cases hpos :
      0 < (st.mem.filter (fun r => decide (l ≤ idVal r) && decide (idVal r ≤ h))).length
  · have hcond : 0 < st.mem.length - (st.mem.filter
        (fun r => !(decide (l ≤ idVal r) && decide (idVal r ≤ h)))).length := by omega
    rw [hred, if_pos hcond]
    refine ⟨rfl, by simp only; omega, ?_⟩
    rw [if_pos hpos]
    simp only
    congr 1
    omega
  · have hcond : ¬ 0 < st.mem.length - (st.mem.filter
        (fun r => !(decide (l ≤ idVal r) && decide (idVal r ≤ h)))).length := by omega
    rw [hred, if_neg hcond]
    refine ⟨rfl, by simp only; omega, ?_⟩
    rw [if_neg hpos]

/-- Witness for C2: deleting range `[2, 2]` from ids 1, 2, 3 removes
exactly the record with id 2 and reports one deletion. -/
theorem C2_range_delete_witness :
    (deleteRange "2" "2" MAINTENANCE_COLS
        ⟨[[("id", "1")], [("id", "2")], [("id", "3")]], []⟩).1.mem
      = [[("id", "1")], [("id", "3")]]
    ∧ (deleteRange "2" "2" MAINTENANCE_COLS
        ⟨[[("id", "1")], [("id", "2")], [("id", "3")]], []⟩).2
      = DelOutcome.success 1 := by
  have hth := C2_range_delete MAINTENANCE_COLS
    (⟨[[("id", "1")], [("id", "2")], [("id", "3")]], []⟩ : Store)
    (show parseInt "2" = some 2 from rfl) (show parseInt "2" = some 2 from rfl)
    (by decide) (by decide)
  refine ⟨?_, ?_⟩
  · rw [hth.1]
    decide
  · rw [hth.2.2]
    decide

/-- Claim C3, counterexample: a range delete with numeric bounds
`lo = 5 > 3 = hi` does not fail with a validation error — it completes
with the "no records found" warning (`st.warning`, not one of the two
`st.error` validation messages) — although it does delete nothing. -/
theorem C3_counterexample :
    deleteRange "5" "3" MAINTENANCE_COLS ⟨[[("id", "1")], [("id", "5")]], []⟩
      = (⟨[[("id", "1")], [("id", "5")]], []⟩, DelOutcome.noneFound)
    ∧ DelOutcome.noneFound.isValidationError = false := by
  exact ⟨by decide, rfl⟩

/-- Claim C3 (amended): a non-numeric (or empty) bound makes the handler
fail with a validation error (`st.error`) and leave the store unchanged;
but numeric bounds with `id_low > id_high` do not produce a validation
error — the handler completes, deletes nothing, and reports the
no-records-found warning. -/
theorem C3_validation :
    (∀ (lo hi : String) (cols : List String) (st : Store),
        (parseInt lo = none ∨ parseInt hi = none) →
        (deleteRange lo hi cols st).1 = st
          ∧ (deleteRange lo hi cols st).2.isValidationError = true)
    ∧ (∀ (lo hi : String) (l h : Int) (cols : List String) (st : Store),
        parseInt lo = some l → parseInt hi = some h → h < l →
        (∀ r ∈ st.mem, idOkB r = true) →
        deleteRange lo hi cols st = (st, DelOutcome.noneFound)) := by
  constructor
  · intro lo hi cols st hbad
    by_cases hemp : lo = "" ∨ hi = ""
    · rw [deleteRange_missing cols st hemp]
      exact ⟨rfl, rfl⟩
    · have hlo : lo ≠ "" := fun h => hemp (Or.inl h)
      have hhi : hi ≠ "" := fun h => hemp (Or.inr h)
      rcases hbad with hb | hb
      · rw [deleteRange_badLo cols st hlo hhi hb]
        exact ⟨rfl, rfl⟩
      · cases hpa : parseInt lo with
        | none =>
            rw [deleteRange_badLo cols st hlo hhi hpa]
            exact ⟨rfl, rfl⟩
        | some l =>
            rw [deleteRange_badHi cols st hlo hhi hpa hb]
            exact ⟨rfl, rfl⟩
  · intro lo hi l h cols st hlo hhi hlt hid
    have hred := deleteRange_ok cols st hlo hhi hid
    have hall : st.mem.filter
        (fun r => !(decide (l ≤ idVal r) && decide (idVal r ≤ h))) = st.mem := by
      refine List.filter_eq_self.mpr (fun r _ => ?_)
      have hnr : idVal r < l ∨ h < idVal r := by omega
      simpa using hnr
    rw [hred, hall, if_neg (by omega)]

/-- Witness for C3: a non-numeric start bound gives the validation error
and no deletion; numeric reversed bounds `[5, 3]` give the warning and no
deletion. -/
theorem C3_validation_witness :
    ((deleteRange "x" "3" MAINTENANCE_COLS ⟨[[("id", "1")]], []⟩).1
        = ⟨[[("id", "1")]], []⟩
      ∧ (deleteRange "x" "3" MAINTENANCE_COLS
          ⟨[[("id", "1")]], []⟩).2.isValidationError = true)
    ∧ deleteRange "5" "3" MAINTENANCE_COLS ⟨[[("id", "4")]], []⟩
        = (⟨[[("id", "4")]], []⟩, DelOutcome.noneFound) :=
  ⟨C3_validation.1 "x" "3" MAINTENANCE_COLS ⟨[[("id", "1")]], []⟩ (Or.inl rfl),
   C3_validation.2 "5" "3" 5 3 MAINTENANCE_COLS ⟨[[("id", "4")]], []⟩
     rfl rfl (by decide) (by decide)⟩

/-- Claim C4, counterexample: the record created by a single insert (as
actor `"engineer1"`) carries no `created_by` field at all — the schema
columns do not include one — so `created_by` does not equal the actor. -/
theorem C4_counterexample :
    (insert MAINTENANCE_COLS (fun _ => "engineer1") ⟨[], []⟩).mem
        = [new_record MAINTENANCE_COLS (fun _ => "engineer1") 0]
    ∧ getField (new_record MAINTENANCE_COLS (fun _ => "engineer1") 0) "created_by"
        = none :=
  ⟨rfl, by decide⟩

/-- Claim C4 (amended): no record created by insert or bulk import ever
carries a `created_by` field: the created records hold exactly the schema
columns, and none of the three schemas contains `created_by`, so the
acting user's identity is not recorded on records at all. -/
theorem C4_no_created_by :
    (∀ (cols : List String) (f : String → String) (len : Nat),
        "created_by" ∉ cols → getField (new_record cols f len) "created_by" = none)
    ∧ (∀ (cols : List String) (nid : Int) (rows : List Record) (r : Record),
        "created_by" ∉ cols → r ∈ cleanRows cols nid rows →
        getField r "created_by" = none)
    ∧ "created_by" ∉ MAINTENANCE_COLS ∧ "created_by" ∉ SAFETY_COLS
    ∧ "created_by" ∉ FLIGHTS_COLS := by
  refine ⟨?_, ?_, by decide, by decide, by decide⟩
  · intro cols f len hmem
    rw [new_record, getField_map_keys, if_neg hmem]
  · intro cols nid rows r hmem hr
    obtain ⟨g, hg⟩ := mem_cleanRows hr
    rw [hg, getField_map_keys, if_neg hmem]

/-- Witness for C4: on the safety schema, neither a form-inserted record
nor a bulk-imported record has a `created_by` field. -/
theorem C4_no_created_by_witness :
    getField (new_record SAFETY_COLS (fun _ => "admin") 3) "created_by" = none
    ∧ getField (SAFETY_COLS.map (fun c =>
        (c, if c = "id" then intRepr 1 else (getField [("severity", "High")] c).getD "")))
        "created_by" = none :=
  ⟨C4_no_created_by.1 SAFETY_COLS (fun _ => "admin") 3 (by decide),
   C4_no_created_by.2.1 SAFETY_COLS 1 [[("severity", "High")]] _ (by decide) (by decide)⟩

/-- Claim C6, counterexample: a bulk-imported record carries no
`uploaded_via` field at all (the cleaning loop writes exactly the schema
columns, and `uploaded_via` is not one of them), so it is not stamped
`uploaded_via = "bulk import"`. -/
theorem C6_counterexample :
    (uploadAll MAINTENANCE_COLS (Except.ok [[("maintenance_type", "A-Check")]])
        ⟨[], []⟩).1.mem.map (fun r => getField r "uploaded_via") = [none] := by
  decide

/-- Claim C6 (amended): row `k` of a bulk import is stored as exactly the
schema columns in order — source columns outside the schema are dropped,
schema columns missing from the source row default to `""`
(case-sensitive `row.get(col, "")`), and the id is `str(next_id + k)`,
consecutive in source order — but no `uploaded_via` (or any other) field
is added: the record's keys are exactly the schema. -/
theorem C6_row_shaping :
    (∀ (cols : List String) (nid : Int) (rows : List Record) (k : Nat),
        (cleanRows cols nid rows)[k]?
          = (rows[k]?).map (fun row => cols.map (fun c =>
              (c, if c = "id" then intRepr (nid + (k : Int))
                  else (getField row c).getD ""))))
    ∧ (∀ (cols : List String) (nid : Int) (rows : List Record) (r : Record),
        r ∈ cleanRows cols nid rows → r.map Prod.fst = cols)
    ∧ (∀ (cols : List String) (nid : Int) (rows : List Record) (r : Record),
        "uploaded_via" ∉ cols → r ∈ cleanRows cols nid rows →
        getField r "uploaded_via" = none)
    ∧ "uploaded_via" ∉ MAINTENANCE_COLS := by
  refine ⟨?_, ?_, ?_, by decide⟩
  · intro cols nid rows
    induction rows generalizing nid with
    | nil => intro k; simp [cleanRows]
    | cons row rest ih =>
        intro k
        have hstep : cleanRows cols nid (row :: rest)
            = (cols.map (fun c =>
                (c, if c = "id" then intRepr nid else (getField row c).getD ""))) ::
              cleanRows cols (nid + 1) rest := rfl
        cases k with
        | zero =>
            rw [hstep, List.getElem?_cons_zero, List.getElem?_cons_zero]
            show some _ = some _
            refine congrArg some (List.map_congr_left (fun c _ => ?_))
            by_cases hc : c = "id"
            · simp [hc]
            · simp [hc]
        | succ k =>
            rw [hstep, List.getElem?_cons_succ, List.getElem?_cons_succ, ih (nid + 1) k]
            cases hk : rest[k]? with
            | none => rfl
            | some row' =>
                show some _ = some _
                refine congrArg some (List.map_congr_left (fun c _ => ?_))
                by_cases hc : c = "id"
                · simp only [hc, if_true, eq_self_iff_true, if_pos]
                  congr 2
                  omega
                · simp [hc]
  · intro cols nid rows r hr
    obtain ⟨g, hg⟩ := mem_cleanRows hr
    have hcomp : (Prod.fst ∘ fun c : String => ((c, g c) : String × String)) = id := by
      funext c
      rfl
    rw [hg, List.map_map, hcomp, List.map_id]
  · intro cols nid rows r hmem hr
    obtain ⟨g, hg⟩ := mem_cleanRows hr
    rw [hg, getField_map_keys, if_neg hmem]

/-- Witness for C6: importing one source row with an unknown column and a
known column into the empty maintenance collection stores exactly the
schema columns, id `"1"`, the known value kept, everything else `""`. -/
theorem C6_row_shaping_witness :
    (cleanRows MAINTENANCE_COLS 1 [[("junk", "z"), ("maintenance_type", "A-Check")]])[0]?
      = some (MAINTENANCE_COLS.map (fun c =>
          (c, if c = "id" then intRepr (1 + ((0 : Nat) : Int))
              else (getField [("junk", "z"), ("maintenance_type", "A-Check")] c).getD "")))
    ∧ getField (MAINTENANCE_COLS.map (fun c =>
        (c, if c = "id" then intRepr 1
            else (getField [("junk", "z"), ("maintenance_type", "A-Check")] c).getD "")))
        "uploaded_via" = none :=
  ⟨C6_row_shaping.1 MAINTENANCE_COLS 1 [[("junk", "z"), ("maintenance_type", "A-Check")]] 0,
   C6_row_shaping.2.2.1 MAINTENANCE_COLS 1
     [[("junk", "z"), ("maintenance_type", "A-Check")]] _ (by decide) (by decide)⟩

/-- Claim C7: every operation — insert, bulk import (including its failure
paths) and range delete (all outcomes) — preserves both that in-memory
records have exactly the schema shape and that the durable CSV file holds
exactly the in-memory records, so after any successful mutation reloading
the file yields the in-memory collection (list equality, hence equality
as a set of records); the delete path's conditional `write_csv` is sound
because when `deleted == 0` nothing changed in memory either. -/
theorem C7_persistence (cols : List String) (op : Op) (st : Store)
    (hc : canonical cols st) (hf : consistent st) :
    canonical cols (applyOp cols op st) ∧ consistent (applyOp cols op st)
    ∧ read_csv (applyOp cols op st) = (applyOp cols op st).mem := by
  have main : canonical cols (applyOp cols op st) ∧ consistent (applyOp cols op st) := by
    cases op with
    | ins f =>
        have hcan2 : ∀ r ∈ st.mem ++ [new_record cols f st.mem.length],
            restrict cols r = r := by
          intro r hr
          rcases List.mem_append.mp hr with h1 | h1
          · exact hc r h1
          · have h2 : r = new_record cols f st.mem.length := by simpa using h1
            rw [h2]
            exact restrict_map_keys cols _
        refine ⟨hcan2, ?_⟩
        show write_csv cols (st.mem ++ [new_record cols f st.mem.length])
            = st.mem ++ [new_record cols f st.mem.length]
        exact write_csv_of_canonical hcan2
    | bulk p =>
        cases p with
        | error e => exact ⟨hc, hf⟩
        | ok rows =>
            cases hn : nextIdComputation st.mem with
            | error e =>
                cases e
                have hst : (applyOp cols (.bulk (.ok rows)) st) = st := by
                  show (uploadAll cols (.ok rows) st).1 = st
                  rw [uploadAll_err_reduce hn]
                rw [hst]
                exact ⟨hc, hf⟩
            | ok nid =>
                have hst : (applyOp cols (.bulk (.ok rows)) st)
                    = { mem := st.mem ++ cleanRows cols nid rows,
                        file := write_csv cols (st.mem ++ cleanRows cols nid rows) } := by
                  show (uploadAll cols (.ok rows) st).1 = _
                  rw [uploadAll_ok_reduce hn]
                rw [hst]
                have hcan : ∀ r ∈ st.mem ++ cleanRows cols nid rows,
                    restrict cols r = r := by
                  intro r hr
                  rcases List.mem_append.mp hr with h1 | h1
                  · exact hc r h1
                  · obtain ⟨g, hg⟩ := mem_cleanRows h1
                    rw [hg]
                    exact restrict_map_keys cols g
                exact ⟨hcan, write_csv_of_canonical hcan⟩
    | del a b =>
        by_cases hemp : a = "" ∨ b = ""
        · have hst : (applyOp cols (.del a b) st) = st := by
            show (deleteRange a b cols st).1 = st
            rw [deleteRange_missing cols st hemp]
          rw [hst]
          exact ⟨hc, hf⟩
        · have ha : a ≠ "" := fun h => hemp (Or.inl h)
          have hb : b ≠ "" := fun h => hemp (Or.inr h)
          cases hpa : parseInt a with
          | none =>
              have hst : (applyOp cols (.del a b) st) = st := by
                show (deleteRange a b cols st).1 = st
                rw [deleteRange_badLo cols st ha hb hpa]
              rw [hst]
              exact ⟨hc, hf⟩
          | some lo =>
              cases hpb : parseInt b with
              | none =>
                  have hst : (applyOp cols (.del a b) st) = st := by
                    show (deleteRange a b cols st).1 = st
                    rw [deleteRange_badHi cols st ha hb hpa hpb]
                  rw [hst]
                  exact ⟨hc, hf⟩
              | some hi =>
                  cases hm : exMapM (fun r => (idNum r).map (fun n => (r, n))) st.mem with
                  | error e =>
                      cases e
                      have hst : (applyOp cols (.del a b) st) = st := by
                        show (deleteRange a b cols st).1 = st
                        rw [deleteRange_raise cols st hpa hpb hm]
                      rw [hst]
                      exact ⟨hc, hf⟩
                  | ok pairs =>
                      have hfst := exMapM_pairs_fst hm
                      have hsub : (keptOf pairs lo hi).Sublist st.mem :=
                        keptOf_sublist hfst
                      have hcan : ∀ r ∈ keptOf pairs lo hi, restrict cols r = r :=
                        fun r hr => hc r (hsub.subset hr)
                      have hred := deleteRange_ok_pairs cols st hpa hpb hm
                      by_cases hd : 0 < st.mem.length - (keptOf pairs lo hi).length
                      · have hst : (applyOp cols (.del a b) st)
                            = { mem := keptOf pairs lo hi,
                                file := write_csv cols (keptOf pairs lo hi) } := by
                          show (deleteRange a b cols st).1 = _
                          rw [hred, if_pos hd]
                        rw [hst]
                        exact ⟨hcan, write_csv_of_canonical hcan⟩
                      · have hst : (applyOp cols (.del a b) st)
                            = { st with mem := keptOf pairs lo hi } := by
                          show (deleteRange a b cols st).1 = _
                          rw [hred, if_neg hd]
                        have hlen : st.mem.length ≤ (keptOf pairs lo hi).length := by
                          omega
                        have heq : keptOf pairs lo hi = st.mem :=
                          hsub.eq_of_length (Nat.le_antisymm hsub.length_le hlen)
                        rw [hst, heq]
                        exact ⟨hc, hf⟩
  exact ⟨main.1, main.2, main.2⟩

/-- Witness for C7: a concrete insert into the empty, consistent
maintenance store leaves file and memory equal and records canonical. -/
theorem C7_persistence_witness :
    canonical MAINTENANCE_COLS (applyOp MAINTENANCE_COLS (Op.ins (fun _ => "x")) ⟨[], []⟩)
    ∧ consistent (applyOp MAINTENANCE_COLS (Op.ins (fun _ => "x")) ⟨[], []⟩)
    ∧ read_csv (applyOp MAINTENANCE_COLS (Op.ins (fun _ => "x")) ⟨[], []⟩)
        = (applyOp MAINTENANCE_COLS (Op.ins (fun _ => "x")) ⟨[], []⟩).mem :=
  C7_persistence MAINTENANCE_COLS (Op.ins (fun _ => "x")) ⟨[], []⟩ (by decide) rfl

/-- Claim C8, counterexample: on a record whose `hours_spent` is the
non-numeric string `"abc"`, the sum does not treat the value as zero —
`float("abc")` raises and the whole aggregation fails. -/
theorem C8_counterexample :
    sum_numeric [[("id", "1"), ("hours_spent", "abc")]] "hours_spent" = Except.error ()
    ∧ (sum_numeric [[("id", "1"), ("hours_spent", "abc")]] "hours_spent").isOk = false :=
  ⟨rfl, rfl⟩

/-- Claim C8 (amended): `sum_numeric` returns the sum of the field's
values with a *missing* field contributing zero (`r.get(field, 0)`), but
a present non-numeric value is not tolerated: `float()` raises and the
whole computation fails; in particular on `hours = [8, 12, 0]` it returns
`20`. -/
theorem C8_sum_numeric :
    (∀ (data : List Record) (field : String),
        (∀ r ∈ data, Option.all (fun s => (parseFloat s).isSome) (getField r field) = true) →
        sum_numeric data field
          = .ok (data.foldl (fun a r => a + fieldValQ r field) 0))
    ∧ (∀ (data : List Record) (field : String) (r : Record) (s : String),
        r ∈ data → getField r field = some s → parseFloat s = none →
        sum_numeric data field = .error ()) := by
  constructor
  · intro data field h
    have hm : exMapM (fun r => pyFloatField r field) data
        = .ok (data.map (fun r => fieldValQ r field)) :=
      exMapM_ok_of_forall (fun r hr => pyFloatField_of_all (h r hr))
    rw [sum_numeric, hm]
    show Except.ok ((data.map (fun r => fieldValQ r field)).foldl (· + ·) 0)
        = Except.ok (data.foldl (fun a r => a + fieldValQ r field) 0)
    rw [List.foldl_map]
  · intro data field r s hr hg hp
    have hm : exMapM (fun r => pyFloatField r field) data = .error () :=
      exMapM_error_of_mem hr (pyFloatField_raise hg hp)
    rw [sum_numeric, hm]

/-- Witness for C8: hours `[8, 12, 0]` sum to `20` over `3` records, and
a single non-numeric value fails the whole sum. -/
theorem C8_sum_numeric_witness :
    sum_numeric [[("hours_spent", "8")], [("hours_spent", "12")], [("hours_spent", "0")]]
        "hours_spent" = Except.ok 20
    ∧ ([[("hours_spent", "8")], [("hours_spent", "12")], [("hours_spent", "0")]]
        : List Record).length = 3
    ∧ sum_numeric [[("hours_spent", "oops")]] "hours_spent" = Except.error () := by
  refine ⟨?_, rfl, ?_⟩
  · rw [C8_sum_numeric.1
      [[("hours_spent", "8")], [("hours_spent", "12")], [("hours_spent", "0")]]
      "hours_spent" (by decide)]
    refine congrArg Except.ok ?_
    show (0 : ℚ) + fieldValQ [("hours_spent", "8")] "hours_spent"
        + fieldValQ [("hours_spent", "12")] "hours_spent"
        + fieldValQ [("hours_spent", "0")] "hours_spent" = 20
    have h8 : fieldValQ [("hours_spent", "8")] "hours_spent" = ((8 : Nat) : ℚ) := rfl
    have h12 : fieldValQ [("hours_spent", "12")] "hours_spent" = ((12 : Nat) : ℚ) := rfl
    have h0 : fieldValQ [("hours_spent", "0")] "hours_spent" = ((0 : Nat) : ℚ) := rfl
    rw [h8, h12, h0]
    norm_num
  · exact C8_sum_numeric.2 [[("hours_spent", "oops")]] "hours_spent"
      [("hours_spent", "oops")] "oops" (by decide) rfl rfl

/-- Claim C10: in range delete with numeric bounds, a record lacking an
`id` key is numbered `int(0) = 0` and is removed exactly when
`id_low ≤ 0 ≤ id_high`; whereas if any record's `id` is present but
non-numeric, `int()` raises inside the comprehension, the whole operation
surfaces the validation error, and nothing (in memory or on file) is
changed. -/
theorem C10_missing_vs_bad_id :
    (∀ (lo hi : String) (l h : Int) (cols : List String) (st : Store) (r : Record),
        parseInt lo = some l → parseInt hi = some h →
        (∀ r' ∈ st.mem, idOkB r' = true) →
        r ∈ st.mem → getField r "id" = none →
        idNum r = .ok 0
          ∧ (r ∈ (deleteRange lo hi cols st).1.mem ↔ ¬(l ≤ 0 ∧ 0 ≤ h)))
    ∧ (∀ (lo hi : String) (l h : Int) (cols : List String) (st : Store) (r : Record)
        (s : String),
        parseInt lo = some l → parseInt hi = some h →
        r ∈ st.mem → getField r "id" = some s → parseInt s = none →
        deleteRange lo hi cols st = (st, DelOutcome.invalidIds)) := by
  constructor
  · intro lo hi l h cols st r hlo hhi hok hr hgid
    have hnum : idNum r = .ok 0 := by rw [idNum, hgid]
    have hval : idVal r = 0 := by rw [idVal, hgid]
    refine ⟨hnum, ?_⟩
    have hmem : (deleteRange lo hi cols st).1.mem
        = st.mem.filter (fun r => !(decide (l ≤ idVal r) && decide (idVal r ≤ h))) := by
      rw [deleteRange_ok cols st hlo hhi hok]
      split <;> rfl
    rw [hmem]
    constructor
    · intro hin
      have h2 := (List.mem_filter.mp hin).2
      rw [hval] at h2
      intro hcon
      simp [hcon.1, hcon.2] at h2
    · intro hout
      refine List.mem_filter.mpr ⟨hr, ?_⟩
      rw [hval]
      by_cases h1 : l ≤ 0
      · have h2 : ¬(0 : Int) ≤ h := fun h2 => hout ⟨h1, h2⟩
        simp [h1, h2]
      · simp [h1]
  · intro lo hi l h cols st r s hlo hhi hr hgid hps
    have hnum : idNum r = .error () := idNum_raise hgid hps
    have hm : exMapM (fun r => (idNum r).map (fun n => (r, n))) st.mem = .error () := by
      refine exMapM_error_of_mem hr ?_
      rw [hnum]
      rfl
    exact deleteRange_raise cols st hlo hhi hm

/-- Witness for C10: a record with no `id` key is deleted by the range
`[0, 5]`; a record with the empty-string id makes the operation fail with
the validation error and delete nothing. -/
theorem C10_missing_vs_bad_id_witness :
    (idNum [("status", "Pending")] = .ok 0
      ∧ ([("status", "Pending")] ∈ (deleteRange "0" "5" MAINTENANCE_COLS
            ⟨[[("status", "Pending")], [("id", "7")]], []⟩).1.mem
          ↔ ¬((0 : Int) ≤ 0 ∧ (0 : Int) ≤ 5)))
    ∧ deleteRange "1" "3" MAINTENANCE_COLS ⟨[[("id", "")]], []⟩
        = (⟨[[("id", "")]], []⟩, DelOutcome.invalidIds) :=
  ⟨C10_missing_vs_bad_id.1 "0" "5" 0 5 MAINTENANCE_COLS
      ⟨[[("status", "Pending")], [("id", "7")]], []⟩ [("status", "Pending")]
      rfl rfl (by decide) (by decide) rfl,
   C10_missing_vs_bad_id.2 "1" "3" 1 3 MAINTENANCE_COLS ⟨[[("id", "")]], []⟩
      [("id", "")] "" rfl rfl (by decide) rfl rfl⟩
